import Mathlib

/-!
Verification of the KML → GeoJSON converter (`scripts/kml_to_geojson.py`).

The development shallowly embeds the converter:

* text is `List Char`; Python's `str.strip()` / `str.split()` / `str.split(',')`
  are modelled by `pyStrip` / `pySplitWs` / `splitOnPred`;
* Python's `float()` constructor is modelled by `pyFloat`, which accepts an
  optionally signed decimal literal (with optional fraction, exponent and
  digit-group underscores) or the case-insensitive words `inf`, `infinity`,
  `nan`.  A successfully parsed value is a `PyVal`: an exact rational for a
  numeric literal, or an infinity/NaN marker for the named forms.  The model
  is restricted to ASCII input (CPython additionally maps Unicode decimal
  digits and Unicode whitespace) and keeps the exact decimal value of a
  numeric literal rather than the nearest IEEE-754 double: no claim below
  depends on the rounded value, only on which strings are accepted and on
  values parsed from identical strings being identical;
* the XML element tree produced by `xml.etree.ElementTree` is the inductive
  `Elem`; `find` on a plain tag searches direct children (`findChild`),
  `find('.//tag')` searches all proper descendants in document (pre-)order
  (`findDesc`), `findall` likewise (`findallChild`, `findallDesc`);
* Python `dict` insertion (in-place overwrite, insertion order preserved) is
  `dictInsert`, lookup is `dictGet`;
* the converter's functions `parse_coordinates`, `placemark_to_feature` and
  `convert` are translated definition by definition.  `convert`'s file I/O is
  out of scope: the model returns the FeatureCollection structure that the
  source serialises with `json.dump` together with the returned feature
  count.
-/

/-- Whitespace characters recognised by Python's `str.strip()` / `str.split()`
and by `float()` (ASCII fragment). -/
def isPySpace (c : Char) : Bool :=
  c == ' ' || c == '\t' || c == '\n' || c == '\r' || c == '\x0b' || c == '\x0c'

/-- Python `str.strip()`: drop leading and trailing whitespace. -/
def pyStrip (l : List Char) : List Char :=
  ((l.dropWhile isPySpace).reverse.dropWhile isPySpace).reverse

/-- Split a character list at every separator character (the separators are
consumed); the chunks between separators are kept, including empty ones.
`splitOnPred (· == sep)` is Python's `str.split(sep)`. -/
def splitOnPred (p : Char → Bool) : List Char → List (List Char)
  | [] => [[]]
  | c :: cs =>
    match splitOnPred p cs with
    | [] => [[]]
    | t :: ts => if p c then [] :: t :: ts else (c :: t) :: ts

/-- Python `str.split()` with no argument: split on whitespace runs and drop
empty chunks, leaving exactly the maximal whitespace-free runs. -/
def pySplitWs (l : List Char) : List (List Char) :=
  (splitOnPred isPySpace l).filter (fun t => !t.isEmpty)

/-- Result of a successful Python `float()` call, up to what the converter can
observe: an exact finite decimal value, a signed infinity, or NaN.  A finite
value is the canonical decimal `num × 10 ^ exp` with `num` not a multiple of
ten (and `exp = 0` when `num = 0`), so two numeric literals denote the same
`PyVal` exactly when they denote the same rational number.  The sign of a
negative zero is dropped. -/
inductive PyVal where
  | finite (num exp : ℤ)
  | inf (neg : Bool)
  | nan
deriving DecidableEq

/-- Numeric value of an ASCII digit. -/
def digitVal (c : Char) : Nat := c.toNat - 48

/-- Consume the continuation of a digit group: further digits, with single
underscores allowed between digits (CPython literal grammar
`digit ((\"_\")? digit)*`).  Returns the accumulated value, the number of
digits consumed so far and the unconsumed rest. -/
def takeDigits : List Char → Nat → Nat → Nat × Nat × List Char
  | '_' :: d :: cs, acc, nd =>
    if d.isDigit then takeDigits cs (acc * 10 + digitVal d) (nd + 1)
    else (acc, nd, '_' :: d :: cs)
  | d :: cs, acc, nd =>
    if d.isDigit then takeDigits cs (acc * 10 + digitVal d) (nd + 1)
    else (acc, nd, d :: cs)
  | [], acc, nd => (acc, nd, [])

/-- Consume a maximal digit group (which must start with a digit; a leading
underscore is not consumed).  Returns value, digit count (`0` when no digit
was consumed) and rest. -/
def takeDigitpart (l : List Char) : Nat × Nat × List Char :=
  match l with
  | d :: cs => if d.isDigit then takeDigits cs (digitVal d) 1 else (0, 0, l)
  | [] => (0, 0, [])

/-- Strip the trailing decimal zeros of an integer, counting them; `fuel`
bounds the recursion and is taken at least as large as the number of trailing
zeros. -/
def stripTens : ℤ → Nat → ℤ × Nat
  | n, 0 => (n, 0)
  | n, fuel + 1 =>
    if n % 10 = 0 then
      let p := stripTens (n / 10) fuel
      (p.1, p.2 + 1)
    else (n, 0)

/-- Exact value of the decimal literal `ip . fr × 10 ^ e` with `nF` fraction
digits, negated when `neg` is set, in canonical mantissa–exponent form. -/
def mkDec (neg : Bool) (ip fr nF : Nat) (e : ℤ) : PyVal :=
  let m : Nat := ip * 10 ^ nF + fr
  if m = 0 then .finite 0 0
  else
    let s : ℤ := if neg then -(m : ℤ) else (m : ℤ)
    let p := stripTens s m
    .finite p.1 (e - nF + p.2)

/-- Parse the numeric-literal part of Python `float()` after sign removal:
`[digits] [. [digits]] [(e|E) [+|-] digits]`, requiring at least one mantissa
digit and full consumption of the input. -/
def parseNumeric (neg : Bool) (u : List Char) : Option PyVal :=
  let s1 := takeDigitpart u
  let ip := s1.1
  let nI := s1.2.1
  let r1 := s1.2.2
  let s2 : Nat × Nat × List Char :=
    match r1 with
    | '.' :: r => takeDigitpart r
    | _ => (0, 0, r1)
  let fr := s2.1
  let nF := s2.2.1
  let r2 := s2.2.2
  if nI + nF = 0 then none
  else
    match r2 with
    | [] => some (mkDec neg ip fr nF 0)
    | c :: r =>
      if c == 'e' || c == 'E' then
        let se : Bool × List Char :=
          match r with
          | '+' :: rr => (false, rr)
          | '-' :: rr => (true, rr)
          | rr => (false, rr)
        let s3 := takeDigitpart se.2
        if s3.2.1 = 0 then none
        else
          match s3.2.2 with
          | [] =>
            some (mkDec neg ip fr nF (if se.1 then -(s3.1 : ℤ) else (s3.1 : ℤ)))
          | _ :: _ => none
      else none

/-- Python `float(s)` on a string: strip whitespace, take an optional sign,
then either a case-insensitive `inf`/`infinity`/`nan` word or a numeric
literal.  `none` models a raised `ValueError`. -/
def pyFloat (s : List Char) : Option PyVal :=
  match pyStrip s with
  | [] => none
  | t =>
    let su : Bool × List Char :=
      match t with
      | '+' :: r => (false, r)
      | '-' :: r => (true, r)
      | r => (false, r)
    let low := su.2.map Char.toLower
    if low = "inf".toList then some (.inf su.1)
    else if low = "infinity".toList then some (.inf su.1)
    else if low = "nan".toList then some .nan
    else parseNumeric su.1 su.2

/-- Whether a string is accepted by `float()` with a finite result. -/
def pyFloatFinite (s : List Char) : Bool :=
  match pyFloat s with
  | some (.finite _ _) => true
  | _ => false

/-- The comma-separated sub-fields of one coordinate token, empty sub-fields
discarded: `[p for p in part.split(',') if p != '']`. -/
def pyFields (tok : List Char) : List (List Char) :=
  (splitOnPred (fun c => c == ',') tok).filter (fun t => !t.isEmpty)

/-- The body of the loop of `parse_coordinates` for one whitespace-separated
token: if the token has at least two non-empty comma-separated sub-fields and
the first two are accepted by `float()`, contribute the pair `(lon, lat)`;
otherwise contribute nothing (`ValueError` is caught and the token skipped). -/
def tokenPair (tok : List Char) : Option (PyVal × PyVal) :=
  match pyFields tok with
  | p0 :: p1 :: _ =>
    match pyFloat p0, pyFloat p1 with
    | some lon, some lat => some (lon, lat)
    | _, _ => none
  | _ => none

/-- `parse_coordinates(text)`: `None` and the empty string yield `[]`;
otherwise split the stripped text on whitespace and collect the pair of each
parsable token, in token order. -/
def parse_coordinates (text : Option (List Char)) : List (PyVal × PyVal) :=
  match text with
  | none => []
  | some t =>
    if t.isEmpty then []
    else (pySplitWs (pyStrip t)).filterMap tokenPair

/-- An element of the parsed XML tree, as `xml.etree.ElementTree` presents it:
a (namespace-qualified) tag, the attribute mapping, the text preceding the
first child (`None` when absent), and the ordered list of child elements. -/
inductive Elem where
  | mk (tag : String) (attrs : List (String × String)) (text : Option (List Char))
      (children : List Elem)

/-- The tag of an element. -/
def Elem.tag : Elem → String
  | .mk t _ _ _ => t

/-- The attribute list of an element. -/
def Elem.attrs : Elem → List (String × String)
  | .mk _ a _ _ => a

/-- The text of an element (`.text`), `none` when absent. -/
def Elem.text : Elem → Option (List Char)
  | .mk _ _ x _ => x

/-- The child list of an element. -/
def Elem.children : Elem → List Elem
  | .mk _ _ _ ch => ch

/-- `element.get(key)`: attribute lookup. -/
def getAttr (e : Elem) (k : String) : Option String :=
  (e.attrs.find? (fun p => p.1 == k)).map (fun p => p.2)

/-- `element.find(tag)` with a plain tag: the first direct child with that
tag, in document order. -/
def findChild (e : Elem) (t : String) : Option Elem :=
  e.children.find? (fun c => c.tag == t)

/-- `element.findall(tag)` with a plain tag: all direct children with that
tag, in document order. -/
def findallChild (e : Elem) (t : String) : List Elem :=
  e.children.filter (fun c => c.tag == t)

/-- All proper descendants of the elements of a list, each element listed
before its own descendants: the document (pre-)order that
`ElementTree`'s `.//` path walks. -/
def descList : List Elem → List Elem
  | [] => []
  | Elem.mk t a x ch :: cs => Elem.mk t a x ch :: (descList ch ++ descList cs)

/-- All proper descendants of an element in document order (the element
itself is not included, matching `element.find('.//tag')`). -/
def descendants (e : Elem) : List Elem :=
  descList e.children

/-- `element.find('.//tag')`: first proper descendant with the tag, in
document order. -/
def findDesc (e : Elem) (t : String) : Option Elem :=
  (descendants e).find? (fun c => c.tag == t)

/-- `element.findall('.//tag')`: all proper descendants with the tag, in
document order. -/
def findallDesc (e : Elem) (t : String) : List Elem :=
  (descendants e).filter (fun c => c.tag == t)

/-- The KML 2.2 namespace prefix `KML_NS` of the source, braces included. -/
def KML_NS : String := "\x7bhttp://www.opengis.net/kml/2.2\x7d"

/-- A namespace-qualified KML tag, `KML_NS + t` in the source. -/
def kml (t : String) : String := KML_NS ++ t

/-- Python `dict` assignment `d[k] = v`: overwrite in place when the key is
present (keeping its position), append otherwise. -/
def dictInsert (k : String) (v : List Char) :
    List (String × List Char) → List (String × List Char)
  | [] => [(k, v)]
  | (k', v') :: ps => if k' == k then (k, v) :: ps else (k', v') :: dictInsert k v ps

/-- Python `dict` lookup. -/
def dictGet (k : String) : List (String × List Char) → Option (List Char)
  | [] => none
  | (k', v) :: ps => if k' == k then some v else dictGet k ps

/-- One of the three identical property steps of `placemark_to_feature`
(lines 33–43): `el = pm.find(KML_NS + key)`; if `el is not None and el.text:`
then `props[key] = el.text.strip()`. -/
def textPropStep (pm : Elem) (key : String) (props : List (String × List Char)) :
    List (String × List Char) :=
  match findChild pm (kml key) with
  | some el =>
    match el.text with
    | some tx => if tx.isEmpty then props else dictInsert key (pyStrip tx) props
    | none => props
  | none => props

/-- The `name` / `description` / `styleUrl` properties of a Placemark, in the
source's insertion order. -/
def mkBaseProps (pm : Elem) : List (String × List Char) :=
  textPropStep pm "styleUrl" (textPropStep pm "description" (textPropStep pm "name" []))

/-- One iteration of the `ExtendedData` loop: `key = data.get('name')`;
`value_el = data.find(KML_NS + 'value')`; if `key:` then `props[key] =
value_el.text.strip() if (value_el is not None and value_el.text) else ''`. -/
def dataStep (props : List (String × List Char)) (data : Elem) :
    List (String × List Char) :=
  match getAttr data "name" with
  | some key =>
    if key.isEmpty then props
    else
      dictInsert key
        (match findChild data (kml "value") with
         | some v =>
           match v.text with
           | some tx => if tx.isEmpty then [] else pyStrip tx
           | none => []
         | none => [])
        props
  | none => props

/-- The full property mapping of a Placemark: the three text properties, then
the `ExtendedData` entries in document order. -/
def mkProps (pm : Elem) : List (String × List Char) :=
  match findChild pm (kml "ExtendedData") with
  | some ed => (findallChild ed (kml "Data")).foldl dataStep (mkBaseProps pm)
  | none => mkBaseProps pm

/-- A GeoJSON geometry object as the source builds it. -/
inductive Geometry where
  | point (c : PyVal × PyVal)
  | lineString (cs : List (PyVal × PyVal))
  | polygon (rings : List (List (PyVal × PyVal)))
deriving DecidableEq

/-- Whether the `coordinates` member of a geometry is non-empty: a Point's
pair is a two-element array, a LineString needs at least one pair, a Polygon
at least one ring each with at least one pair. -/
def Geometry.coordsNonempty : Geometry → Bool
  | .point _ => true
  | .lineString cs => !cs.isEmpty
  | .polygon rs => !rs.isEmpty && rs.all (fun r => !r.isEmpty)

/-- A GeoJSON Feature as the source builds it (the constant `'type':
'Feature'` member is omitted). -/
structure Feature where
  properties : List (String × List Char)
  geometry : Geometry
deriving DecidableEq

/-- The `coordinates`-child text read for a Point or LineString element:
`geom.find(KML_NS + 'coordinates').text if geom.find(KML_NS + 'coordinates')
is not None else ''`.  A present child may still have `None` text. -/
def coordsChildText (geom : Elem) : Option (List Char) :=
  match findChild geom (kml "coordinates") with
  | some ce => ce.text
  | none => some []

/-- The `coordinates` text read for a Polygon's outer boundary:
`coords_el = outer.find('.//' + KML_NS + 'coordinates')`, then
`coords_el.text if coords_el is not None else ''`. -/
def outerCoordsText (outer : Elem) : Option (List Char) :=
  match findDesc outer (kml "coordinates") with
  | some ce => ce.text
  | none => some []

/-- The Point probe of `placemark_to_feature` (lines 53–62): first descendant
`Point`, parse its coordinates child, succeed only on a non-empty parse, with
the geometry keeping only the first pair (`coords[0]`). -/
def pointGeom (pm : Elem) : Option Geometry :=
  match findDesc pm (kml "Point") with
  | some point =>
    match parse_coordinates (coordsChildText point) with
    | [] => none
    | c :: _ => some (.point c)
  | none => none

/-- The LineString probe (lines 63–72): first descendant `LineString`, parse
its coordinates child, succeed only on a non-empty parse, keeping the whole
sequence. -/
def lineGeom (pm : Elem) : Option Geometry :=
  match findDesc pm (kml "LineString") with
  | some ls =>
    match parse_coordinates (coordsChildText ls) with
    | [] => none
    | c :: cs => some (.lineString (c :: cs))
  | none => none

/-- The Polygon probe (lines 73–84): first descendant `Polygon`, then a
descendant `outerBoundaryIs` within it, then a descendant `coordinates`
within that; succeed only on a non-empty parse, with a single ring. -/
def polyGeom (pm : Elem) : Option Geometry :=
  match findDesc pm (kml "Polygon") with
  | some polygon =>
    match findDesc polygon (kml "outerBoundaryIs") with
    | some outer =>
      match parse_coordinates (outerCoordsText outer) with
      | [] => none
      | c :: cs => some (.polygon [c :: cs])
    | none => none
  | none => none

/-- `placemark_to_feature(pm)`: the property mapping plus the first geometry
probe that succeeds, in the order Point, LineString, Polygon; `none` when all
three fail. -/
def placemark_to_feature (pm : Elem) : Option Feature :=
  let props := mkProps pm
  match pointGeom pm with
  | some g => some ⟨props, g⟩
  | none =>
    match lineGeom pm with
    | some g => some ⟨props, g⟩
    | none =>
      match polyGeom pm with
      | some g => some ⟨props, g⟩
      | none => none

/-- The output FeatureCollection (the constant `'type': 'FeatureCollection'`
member is omitted). -/
structure FeatureCollection where
  features : List Feature
deriving DecidableEq

/-- `convert`: map `placemark_to_feature` over every descendant `Placemark`
of the root in document order, keep the non-`None` results (an emitted
Feature dictionary is never empty, so Python truthiness agrees with
`is not None`), and return the FeatureCollection structure that is serialised
together with the feature count that the function returns. -/
def convert (root : Elem) : FeatureCollection × Nat :=
  let features := (findallDesc root (kml "Placemark")).filterMap placemark_to_feature
  (⟨features⟩, features.length)

/-- Proper-descendant relation of the element tree: `ChildStar p e` holds
exactly when `e` is reachable from `p` by one or more child steps, at any
depth. -/
inductive ChildStar : Elem → Elem → Prop where
  | child {p c : Elem} : c ∈ p.children → ChildStar p c
  | nest {p c d : Elem} : c ∈ p.children → ChildStar c d → ChildStar p d

/-- A `coordinates` element with the given text. -/
def mkCoords (s : String) : Elem := .mk (kml "coordinates") [] (some s.toList) []

/-- A Point element whose coordinates parse to two pairs. -/
def cPointW : Elem := .mk (kml "Point") [] none [mkCoords "1.0,2.0,0 5,6"]

/-- A LineString element with three pairs. -/
def cLineW : Elem := .mk (kml "LineString") [] none [mkCoords "0,0 1,1 2,2"]

/-- A LinearRing wrapping a ring's coordinates. -/
def cRingW : Elem := .mk (kml "LinearRing") [] none [mkCoords "0,0 1,0 1,1 0,0"]

/-- An outerBoundaryIs whose coordinates sit below a LinearRing child. -/
def cOuterW : Elem := .mk (kml "outerBoundaryIs") [] none [cRingW]

/-- A Polygon element. -/
def cPolyW : Elem := .mk (kml "Polygon") [] none [cOuterW]

/-- A name element with text `A`. -/
def cNameW : Elem := .mk (kml "name") [] (some "A".toList) []

/-- A name element with whitespace-only text. -/
def cNameWsW : Elem := .mk (kml "name") [] (some "   ".toList) []

/-- A Data element whose `name` attribute is the empty string. -/
def cDataEmptyW : Elem := .mk (kml "Data") [("name", "")] none []

/-- A Data element `pop = 42`. -/
def cDataPopW : Elem :=
  .mk (kml "Data") [("name", "pop")] none [.mk (kml "value") [] (some "42".toList) []]

/-- An ExtendedData block with an empty-named and a normal Data entry. -/
def cEDW : Elem := .mk (kml "ExtendedData") [] none [cDataEmptyW, cDataPopW]

/-- A Placemark with a name and a Point. -/
def pmPointW : Elem := .mk (kml "Placemark") [] none [cNameW, cPointW]

/-- A Placemark with both a Point and a LineString. -/
def pmBothW : Elem := .mk (kml "Placemark") [] none [cPointW, cLineW]

/-- A Placemark with only a Polygon. -/
def pmPolyW : Elem := .mk (kml "Placemark") [] none [cPolyW]

/-- A Placemark whose name text is whitespace-only. -/
def pmWsW : Elem := .mk (kml "Placemark") [] none [cNameWsW, cPointW]

/-- A Placemark with ExtendedData and a Point. -/
def pmEDW : Elem := .mk (kml "Placemark") [] none [cEDW, cPointW]

/-- A document whose single Placemark is nested under Document. -/
def docW : Elem := .mk (kml "kml") [] none [.mk (kml "Document") [] none [pmPointW]]

/-- A well-formed tree whose root element itself is a Placemark. -/
def rootPmW : Elem := .mk (kml "Placemark") [] none [cPointW]

theorem splitOnPred_ne_nil (p : Char → Bool) (l : List Char) : splitOnPred p l ≠ [] := by
  cases l with
  | nil => simp [splitOnPred]
  | cons c cs =>
    rw [splitOnPred]
    cases h : splitOnPred p cs with
    | nil => simp
    | cons t ts =>
      show (if p c = true then [] :: t :: ts else (c :: t) :: ts) ≠ []
      split <;> simp

theorem splitOnPred_nosep (p : Char → Bool) (l : List Char) (h : ∀ c ∈ l, p c = false) :
    splitOnPred p l = [l] := by
  induction l with
  | nil => rfl
  | cons c cs ih =>
    have hc : p c = false := h c (List.mem_cons_self c cs)
    have ih' := ih (fun x hx => h x (List.mem_cons_of_mem c hx))
    simp [splitOnPred, ih', hc]

theorem splitOnPred_append_sep (p : Char → Bool) (x y : List Char) (s : Char)
    (hx : ∀ c ∈ x, p c = false) (hs : p s = true) :
    splitOnPred p (x ++ s :: y) = x :: splitOnPred p y := by
  induction x with
  | nil =>
    rw [List.nil_append, splitOnPred]
    cases h : splitOnPred p y with
    | nil => exact absurd h (splitOnPred_ne_nil p y)
    | cons t ts => simp [hs]
  | cons c cs ih =>
    have hc : p c = false := hx c (List.mem_cons_self c cs)
    have ih' := ih (fun a ha => hx a (List.mem_cons_of_mem c ha))
    rw [List.cons_append, splitOnPred, ih']
    simp [hc]

theorem dropWhile_eq_self_of_nomatch (p : Char → Bool) (l : List Char)
    (h : ∀ c ∈ l, p c = false) : l.dropWhile p = l := by
  cases l with
  | nil => rfl
  | cons c cs => simp [List.dropWhile_cons, h c (List.mem_cons_self c cs)]

theorem pyStrip_of_nospace (l : List Char) (h : ∀ c ∈ l, isPySpace c = false) :
    pyStrip l = l := by
  unfold pyStrip
  rw [dropWhile_eq_self_of_nomatch _ _ h,
    dropWhile_eq_self_of_nomatch _ _ (fun c hc => h c (List.mem_reverse.mp hc)),
    List.reverse_reverse]

theorem pySplitWs_single (l : List Char) (h : ∀ c ∈ l, isPySpace c = false) (hne : l ≠ []) :
    pySplitWs l = [l] := by
  unfold pySplitWs
  rw [splitOnPred_nosep _ _ h]
  simp [hne]

theorem pyFloat_nil : pyFloat [] = none := rfl

theorem pyFloat_ne_nil {s : List Char} {v : PyVal} (h : pyFloat s = some v) : s ≠ [] := by
  intro hs
  rw [hs, pyFloat_nil] at h
  exact Option.noConfusion h

theorem parse_coordinates_some (t : List Char) :
    parse_coordinates (some t) = (pySplitWs (pyStrip t)).filterMap tokenPair := by
  cases t <;> rfl

theorem tokenPair_eq_some_iff (tok : List Char) (p : PyVal × PyVal) :
    tokenPair tok = some p ↔
      ∃ f0 f1 rest, pyFields tok = f0 :: f1 :: rest ∧
        ∃ a b, pyFloat f0 = some a ∧ pyFloat f1 = some b ∧ p = (a, b) := by
  unfold tokenPair
  constructor
  · intro h
    split at h
    next f0 f1 rest hf =>
      split at h
      next a b ha hb =>
        injection h with hv
        exact ⟨f0, f1, rest, hf, a, b, ha, hb, hv.symm⟩
      next => exact Option.noConfusion h
    next => exact Option.noConfusion h
  · rintro ⟨f0, f1, rest, hf, a, b, ha, hb, rfl⟩
    rw [hf]
    simp [ha, hb]

theorem tokenPair_eq_none_of_short (tok : List Char)
    (h : ∀ f0 f1 rest, pyFields tok ≠ f0 :: f1 :: rest) : tokenPair tok = none := by
  unfold tokenPair
  split
  next f0 f1 rest hf => exact absurd hf (h f0 f1 rest)
  next => rfl

theorem pyFields_nosep (x : List Char) (hx : ',' ∉ x) (hne : x ≠ []) :
    pyFields x = [x] := by
  unfold pyFields
  rw [splitOnPred_nosep _ _ (fun c hc => ?_)]
  · simp [hne]
  · rcases eq_or_ne c ',' with rfl | hcne
    · exact absurd hc hx
    · exact beq_eq_false_iff_ne.mpr hcne

theorem pyFields_cons_of_comma_free (x y : List Char) (hx : ',' ∉ x) (hne : x ≠ []) :
    pyFields (x ++ ',' :: y) = x :: pyFields y := by
  unfold pyFields
  rw [splitOnPred_append_sep _ _ _ _ (fun c hc => ?_) (by simp)]
  · simp [hne]
  · rcases eq_or_ne c ',' with rfl | hcne
    · exact absurd hc hx
    · exact beq_eq_false_iff_ne.mpr hcne

theorem dictGet_insert_self (k : String) (v : List Char) (ps : List (String × List Char)) :
    dictGet k (dictInsert k v ps) = some v := by
  induction ps with
  | nil => simp [dictInsert, dictGet]
  | cons p ps ih =>
    obtain ⟨k', v'⟩ := p
    by_cases h : k' = k
    · simp [dictInsert, dictGet, h]
    · simp [dictInsert, dictGet, h, ih]

theorem dictGet_insert_ne (k k' : String) (v : List Char) (ps : List (String × List Char))
    (h : k ≠ k') : dictGet k (dictInsert k' v ps) = dictGet k ps := by
  induction ps with
  | nil => simp [dictInsert, dictGet, Ne.symm h]
  | cons p ps ih =>
    obtain ⟨q, w⟩ := p
    by_cases hq : q = k'
    · simp [dictInsert, dictGet, hq, Ne.symm h]
    · simp only [dictInsert, beq_iff_eq, hq, if_false]
      by_cases hqk : q = k
      · simp [dictGet, hqk]
      · simp [dictGet, hqk, ih]

theorem textPropStep_get_ne (pm : Elem) (k key : String) (ps : List (String × List Char))
    (h : k ≠ key) : dictGet k (textPropStep pm key ps) = dictGet k ps := by
  unfold textPropStep
  split
  next el _ =>
    split
    next tx _ =>
      split
      · rfl
      · exact dictGet_insert_ne k key (pyStrip tx) ps h
    next => rfl
  next => rfl

theorem textPropStep_get_self (pm : Elem) (key : String) (ps : List (String × List Char))
    (v : List Char) (hnone : dictGet key ps = none) :
    dictGet key (textPropStep pm key ps) = some v ↔
      ∃ el tx, findChild pm (kml key) = some el ∧ el.text = some tx ∧ tx ≠ [] ∧
        v = pyStrip tx := by
  unfold textPropStep
  split
  next el hfc =>
    split
    next tx htx =>
      split
      next hemp =>
        rw [hnone]
        simp only [List.isEmpty_iff] at hemp
        constructor
        · intro h
          exact Option.noConfusion h
        · rintro ⟨el', tx', hel', htx', hne', _⟩
          have he : el = el' := by
            have := hfc.symm.trans hel'
            injection this
          rw [← he, htx] at htx'
          injection htx' with ht
          exact absurd ht.symm (hemp ▸ hne')
      next hemp =>
        rw [dictGet_insert_self]
        simp only [List.isEmpty_iff] at hemp
        constructor
        · intro h
          injection h with hv
          exact ⟨el, tx, hfc, htx, hemp, hv.symm⟩
        · rintro ⟨el', tx', hel', htx', hne', rfl⟩
          have he : el = el' := by
            have := hfc.symm.trans hel'
            injection this
          rw [← he, htx] at htx'
          injection htx' with ht
          rw [ht]
    next htx =>
      rw [hnone]
      constructor
      · intro h
        exact Option.noConfusion h
      · rintro ⟨el', tx', hel', htx', _, _⟩
        have he : el = el' := by
          have := hfc.symm.trans hel'
          injection this
        rw [← he, htx] at htx'
        exact Option.noConfusion htx'
  next hfc =>
    rw [hnone]
    constructor
    · intro h
      exact Option.noConfusion h
    · rintro ⟨el', tx', hel', _, _, _⟩
      rw [hfc] at hel'
      exact Option.noConfusion hel'

theorem mkBaseProps_get_name (pm : Elem) (v : List Char) :
    dictGet "name" (mkBaseProps pm) = some v ↔
      ∃ el tx, findChild pm (kml "name") = some el ∧ el.text = some tx ∧ tx ≠ [] ∧
        v = pyStrip tx := by
  unfold mkBaseProps
  rw [textPropStep_get_ne _ _ _ _ (by decide), textPropStep_get_ne _ _ _ _ (by decide)]
  exact textPropStep_get_self pm "name" [] v rfl

theorem mkBaseProps_get_description (pm : Elem) (v : List Char) :
    dictGet "description" (mkBaseProps pm) = some v ↔
      ∃ el tx, findChild pm (kml "description") = some el ∧ el.text = some tx ∧ tx ≠ [] ∧
        v = pyStrip tx := by
  unfold mkBaseProps
  rw [textPropStep_get_ne _ _ _ _ (by decide)]
  exact textPropStep_get_self pm "description" _ v
    (by rw [textPropStep_get_ne _ _ _ _ (by decide)]; rfl)

theorem mkBaseProps_get_styleUrl (pm : Elem) (v : List Char) :
    dictGet "styleUrl" (mkBaseProps pm) = some v ↔
      ∃ el tx, findChild pm (kml "styleUrl") = some el ∧ el.text = some tx ∧ tx ≠ [] ∧
        v = pyStrip tx := by
  unfold mkBaseProps
  exact textPropStep_get_self pm "styleUrl" _ v
    (by rw [textPropStep_get_ne _ _ _ _ (by decide), textPropStep_get_ne _ _ _ _ (by decide)]
        rfl)

theorem mkBaseProps_get_empty (pm : Elem) : dictGet "" (mkBaseProps pm) = none := by
  unfold mkBaseProps
  rw [textPropStep_get_ne _ _ _ _ (by decide), textPropStep_get_ne _ _ _ _ (by decide),
    textPropStep_get_ne _ _ _ _ (by decide)]
  rfl

theorem dataStep_get_empty (ps : List (String × List Char)) (d : Elem)
    (h : dictGet "" ps = none) : dictGet "" (dataStep ps d) = none := by
  unfold dataStep
  split
  next key hk =>
    split
    next => exact h
    next hkemp =>
      rw [dictGet_insert_ne _ _ _ _ ?_]
      · exact h
      · intro he
        rw [← he] at hkemp
        exact hkemp rfl
  next => exact h

theorem foldl_dataStep_get_empty (ds : List Elem) (ps : List (String × List Char))
    (h : dictGet "" ps = none) : dictGet "" (ds.foldl dataStep ps) = none := by
  induction ds generalizing ps with
  | nil => exact h
  | cons d ds ih => exact ih _ (dataStep_get_empty ps d h)

theorem mkProps_get_empty (pm : Elem) : dictGet "" (mkProps pm) = none := by
  unfold mkProps
  split
  · exact foldl_dataStep_get_empty _ _ (mkBaseProps_get_empty pm)
  · exact mkBaseProps_get_empty pm

theorem dataStep_skip_empty_name (ps : List (String × List Char)) (d : Elem)
    (h : getAttr d "name" = some "") : dataStep ps d = ps := by
  simp [dataStep, h]
  intro hf
  exact absurd hf (by decide)

theorem dataStep_skip_no_name (ps : List (String × List Char)) (d : Elem)
    (h : getAttr d "name" = none) : dataStep ps d = ps := by
  simp [dataStep, h]

theorem pointGeom_of_find_none {pm : Elem} (h : findDesc pm (kml "Point") = none) :
    pointGeom pm = none := by
  rw [pointGeom, h]

theorem pointGeom_of_parse_nil {pm pt : Elem} (h1 : findDesc pm (kml "Point") = some pt)
    (h2 : parse_coordinates (coordsChildText pt) = []) : pointGeom pm = none := by
  rw [pointGeom, h1]
  simp only [h2]

theorem pointGeom_of_parse_cons {pm pt : Elem} {c : PyVal × PyVal} {cs : List (PyVal × PyVal)}
    (h1 : findDesc pm (kml "Point") = some pt)
    (h2 : parse_coordinates (coordsChildText pt) = c :: cs) :
    pointGeom pm = some (.point c) := by
  rw [pointGeom, h1]
  simp only [h2]

theorem pointGeom_some_inv {pm : Elem} {g : Geometry} (h : pointGeom pm = some g) :
    ∃ pt c cs, findDesc pm (kml "Point") = some pt ∧
      parse_coordinates (coordsChildText pt) = c :: cs ∧ g = .point c := by
  unfold pointGeom at h
  split at h
  next pt hfd =>
    split at h
    next => exact Option.noConfusion h
    next c cs hp =>
      injection h with hv
      exact ⟨pt, c, cs, hfd, hp, hv.symm⟩
  next => exact Option.noConfusion h

theorem lineGeom_of_find_none {pm : Elem} (h : findDesc pm (kml "LineString") = none) :
    lineGeom pm = none := by
  rw [lineGeom, h]

theorem lineGeom_of_parse_nil {pm ls : Elem} (h1 : findDesc pm (kml "LineString") = some ls)
    (h2 : parse_coordinates (coordsChildText ls) = []) : lineGeom pm = none := by
  rw [lineGeom, h1]
  simp only [h2]

theorem lineGeom_of_parse_cons {pm ls : Elem} {c : PyVal × PyVal} {cs : List (PyVal × PyVal)}
    (h1 : findDesc pm (kml "LineString") = some ls)
    (h2 : parse_coordinates (coordsChildText ls) = c :: cs) :
    lineGeom pm = some (.lineString (c :: cs)) := by
  rw [lineGeom, h1]
  simp only [h2]

theorem lineGeom_some_inv {pm : Elem} {g : Geometry} (h : lineGeom pm = some g) :
    ∃ ls c cs, findDesc pm (kml "LineString") = some ls ∧
      parse_coordinates (coordsChildText ls) = c :: cs ∧ g = .lineString (c :: cs) := by
  unfold lineGeom at h
  split at h
  next ls hfd =>
    split at h
    next => exact Option.noConfusion h
    next c cs hp =>
      injection h with hv
      exact ⟨ls, c, cs, hfd, hp, hv.symm⟩
  next => exact Option.noConfusion h

theorem polyGeom_of_find_none {pm : Elem} (h : findDesc pm (kml "Polygon") = none) :
    polyGeom pm = none := by
  rw [polyGeom, h]

theorem polyGeom_of_outer_none {pm pg : Elem} (h1 : findDesc pm (kml "Polygon") = some pg)
    (h2 : findDesc pg (kml "outerBoundaryIs") = none) : polyGeom pm = none := by
  rw [polyGeom, h1]
  simp only [h2]

theorem polyGeom_of_parse_nil {pm pg ob : Elem} (h1 : findDesc pm (kml "Polygon") = some pg)
    (h2 : findDesc pg (kml "outerBoundaryIs") = some ob)
    (h3 : parse_coordinates (outerCoordsText ob) = []) : polyGeom pm = none := by
  rw [polyGeom, h1]
  simp only [h2, h3]

theorem polyGeom_of_parse_cons {pm pg ob : Elem} {c : PyVal × PyVal}
    {cs : List (PyVal × PyVal)} (h1 : findDesc pm (kml "Polygon") = some pg)
    (h2 : findDesc pg (kml "outerBoundaryIs") = some ob)
    (h3 : parse_coordinates (outerCoordsText ob) = c :: cs) :
    polyGeom pm = some (.polygon [c :: cs]) := by
  rw [polyGeom, h1]
  simp only [h2, h3]

theorem polyGeom_some_inv {pm : Elem} {g : Geometry} (h : polyGeom pm = some g) :
    ∃ pg ob c cs, findDesc pm (kml "Polygon") = some pg ∧
      findDesc pg (kml "outerBoundaryIs") = some ob ∧
      parse_coordinates (outerCoordsText ob) = c :: cs ∧ g = .polygon [c :: cs] := by
  unfold polyGeom at h
  split at h
  next pg hfd =>
    split at h
    next ob hob =>
      split at h
      next => exact Option.noConfusion h
      next c cs hp =>
        injection h with hv
        exact ⟨pg, ob, c, cs, hfd, hob, hp, hv.symm⟩
    next => exact Option.noConfusion h
  next => exact Option.noConfusion h

theorem ptf_point {pm : Elem} {g : Geometry} (h : pointGeom pm = some g) :
    placemark_to_feature pm = some ⟨mkProps pm, g⟩ := by
  rw [placemark_to_feature, h]

theorem ptf_line {pm : Elem} {g : Geometry} (h1 : pointGeom pm = none)
    (h2 : lineGeom pm = some g) :
    placemark_to_feature pm = some ⟨mkProps pm, g⟩ := by
  rw [placemark_to_feature, h1]
  simp only [h2]

theorem ptf_poly {pm : Elem} {g : Geometry} (h1 : pointGeom pm = none)
    (h2 : lineGeom pm = none) (h3 : polyGeom pm = some g) :
    placemark_to_feature pm = some ⟨mkProps pm, g⟩ := by
  rw [placemark_to_feature, h1]
  simp only [h2, h3]

theorem ptf_none {pm : Elem} (h1 : pointGeom pm = none) (h2 : lineGeom pm = none)
    (h3 : polyGeom pm = none) : placemark_to_feature pm = none := by
  rw [placemark_to_feature, h1]
  simp only [h2, h3]

theorem ptf_some_inv {pm : Elem} {f : Feature} (h : placemark_to_feature pm = some f) :
    f.properties = mkProps pm ∧
      (pointGeom pm = some f.geometry ∨
        (pointGeom pm = none ∧ lineGeom pm = some f.geometry) ∨
        (pointGeom pm = none ∧ lineGeom pm = none ∧ polyGeom pm = some f.geometry)) := by
  unfold placemark_to_feature at h
  split at h
  next g hg =>
    injection h with hf
    rw [← hf]
    exact ⟨rfl, Or.inl hg⟩
  next hg =>
    split at h
    next g hl =>
      injection h with hf
      rw [← hf]
      exact ⟨rfl, Or.inr (Or.inl ⟨hg, hl⟩)⟩
    next hl =>
      split at h
      next g hp =>
        injection h with hf
        rw [← hf]
        exact ⟨rfl, Or.inr (Or.inr ⟨hg, hl, hp⟩)⟩
      next => exact Option.noConfusion h

theorem descList_mem (l : List Elem) (e : Elem) :
    e ∈ descList l ↔ ∃ c ∈ l, e = c ∨ e ∈ descendants c := by
  induction l with
  | nil => simp [descList]
  | cons c cs ih =>
    obtain ⟨t, a, x, ch⟩ := c
    simp only [descList, List.mem_cons, List.mem_append, descendants, Elem.children, ih]
    constructor
    · rintro (rfl | hch | ⟨d, hd, he⟩)
      · exact ⟨_, Or.inl rfl, Or.inl rfl⟩
      · exact ⟨_, Or.inl rfl, Or.inr hch⟩
      · exact ⟨d, Or.inr hd, he⟩
    · rintro ⟨d, rfl | hd, he⟩
      · rcases he with rfl | hch
        · exact Or.inl rfl
        · exact Or.inr (Or.inl hch)
      · exact Or.inr (Or.inr ⟨d, hd, he⟩)

theorem childStar_of_mem_descendants : ∀ (r e : Elem), e ∈ descendants r → ChildStar r e
  | .mk t a x ch, e, h => by
    have h' : e ∈ descList ch := h
    obtain ⟨c, hc, hce⟩ := (descList_mem ch e).mp h'
    rcases hce with rfl | hdesc
    · exact ChildStar.child hc
    · exact ChildStar.nest hc (childStar_of_mem_descendants c e hdesc)
termination_by r e _ => sizeOf r
decreasing_by
  have := List.sizeOf_lt_of_mem hc
  simp only [Elem.mk.sizeOf_spec]
  omega

theorem mem_descendants_of_childStar (r e : Elem) (h : ChildStar r e) :
    e ∈ descendants r := by
  induction h with
  | child hc => exact (descList_mem _ _).mpr ⟨_, hc, Or.inl rfl⟩
  | nest hc _ ih => exact (descList_mem _ _).mpr ⟨_, hc, Or.inr ih⟩

theorem mem_descendants_iff_childStar (r e : Elem) :
    e ∈ descendants r ↔ ChildStar r e :=
  ⟨childStar_of_mem_descendants r e, mem_descendants_of_childStar r e⟩

theorem pointGeom_none_parse {pm pt : Elem} (h : pointGeom pm = none)
    (h1 : findDesc pm (kml "Point") = some pt) :
    parse_coordinates (coordsChildText pt) = [] := by
  cases hp : parse_coordinates (coordsChildText pt) with
  | nil => rfl
  | cons c cs =>
    rw [pointGeom_of_parse_cons h1 hp] at h
    exact Option.noConfusion h

theorem lineGeom_none_parse {pm ls : Elem} (h : lineGeom pm = none)
    (h1 : findDesc pm (kml "LineString") = some ls) :
    parse_coordinates (coordsChildText ls) = [] := by
  cases hp : parse_coordinates (coordsChildText ls) with
  | nil => rfl
  | cons c cs =>
    rw [lineGeom_of_parse_cons h1 hp] at h
    exact Option.noConfusion h

theorem polyGeom_none_parse {pm pg ob : Elem} (h : polyGeom pm = none)
    (h1 : findDesc pm (kml "Polygon") = some pg)
    (h2 : findDesc pg (kml "outerBoundaryIs") = some ob) :
    parse_coordinates (outerCoordsText ob) = [] := by
  cases hp : parse_coordinates (outerCoordsText ob) with
  | nil => rfl
  | cons c cs =>
    rw [polyGeom_of_parse_cons h1 h2 hp] at h
    exact Option.noConfusion h

theorem pointGeom_none_of {pm : Elem}
    (h : ∀ pt, findDesc pm (kml "Point") = some pt →
      parse_coordinates (coordsChildText pt) = []) : pointGeom pm = none := by
  cases hf : findDesc pm (kml "Point") with
  | none => exact pointGeom_of_find_none hf
  | some pt => exact pointGeom_of_parse_nil hf (h pt hf)

theorem lineGeom_none_of {pm : Elem}
    (h : ∀ ls, findDesc pm (kml "LineString") = some ls →
      parse_coordinates (coordsChildText ls) = []) : lineGeom pm = none := by
  cases hf : findDesc pm (kml "LineString") with
  | none => exact lineGeom_of_find_none hf
  | some ls => exact lineGeom_of_parse_nil hf (h ls hf)

theorem fd_pmPointW_point : findDesc pmPointW (kml "Point") = some cPointW := by
  simp only [findDesc, descendants, pmPointW, cNameW, cPointW, mkCoords, Elem.children,
    descList]
  rfl

theorem fd_pmBothW_point : findDesc pmBothW (kml "Point") = some cPointW := by
  simp only [findDesc, descendants, pmBothW, cPointW, cLineW, mkCoords, Elem.children,
    descList]
  rfl

theorem fd_pmBothW_line : findDesc pmBothW (kml "LineString") = some cLineW := by
  simp only [findDesc, descendants, pmBothW, cPointW, cLineW, mkCoords, Elem.children,
    descList]
  rfl

theorem fd_pmPolyW_point : findDesc pmPolyW (kml "Point") = none := by
  simp only [findDesc, descendants, pmPolyW, cPolyW, cOuterW, cRingW, mkCoords,
    Elem.children, descList]
  rfl

theorem fd_pmPolyW_line : findDesc pmPolyW (kml "LineString") = none := by
  simp only [findDesc, descendants, pmPolyW, cPolyW, cOuterW, cRingW, mkCoords,
    Elem.children, descList]
  rfl

theorem fd_pmPolyW_poly : findDesc pmPolyW (kml "Polygon") = some cPolyW := by
  simp only [findDesc, descendants, pmPolyW, cPolyW, cOuterW, cRingW, mkCoords,
    Elem.children, descList]
  rfl

theorem fd_cPolyW_outer : findDesc cPolyW (kml "outerBoundaryIs") = some cOuterW := by
  simp only [findDesc, descendants, cPolyW, cOuterW, cRingW, mkCoords, Elem.children,
    descList]
  rfl

theorem fd_cOuterW_coords :
    findDesc cOuterW (kml "coordinates") = some (mkCoords "0,0 1,0 1,1 0,0") := by
  simp only [findDesc, descendants, cOuterW, cRingW, mkCoords, Elem.children, descList]
  rfl

theorem outerCoordsText_cOuterW :
    outerCoordsText cOuterW = some ("0,0 1,0 1,1 0,0".toList) := by
  rw [outerCoordsText, fd_cOuterW_coords]
  rfl

theorem fd_pmWsW_point : findDesc pmWsW (kml "Point") = some cPointW := by
  simp only [findDesc, descendants, pmWsW, cNameWsW, cPointW, mkCoords, Elem.children,
    descList]
  rfl

theorem fd_pmEDW_point : findDesc pmEDW (kml "Point") = some cPointW := by
  simp only [findDesc, descendants, pmEDW, cEDW, cDataEmptyW, cDataPopW, cPointW, mkCoords,
    Elem.children, descList]
  rfl

theorem fd_rootPmW_point : findDesc rootPmW (kml "Point") = some cPointW := by
  simp only [findDesc, descendants, rootPmW, cPointW, mkCoords, Elem.children, descList]
  rfl

theorem fa_docW : findallDesc docW (kml "Placemark") = [pmPointW] := by
  simp only [findallDesc, descendants, docW, pmPointW, cNameW, cPointW, mkCoords,
    Elem.children, descList]
  rfl

theorem fa_rootPmW : findallDesc rootPmW (kml "Placemark") = [] := by
  simp only [findallDesc, descendants, rootPmW, cPointW, mkCoords, Elem.children, descList]
  rfl

theorem parse_cPointW : parse_coordinates (coordsChildText cPointW) =
    [(.finite 1 0, .finite 2 0), (.finite 5 0, .finite 6 0)] := by decide

theorem parse_cOuterW : parse_coordinates (outerCoordsText cOuterW) =
    [(.finite 0 0, .finite 0 0), (.finite 1 0, .finite 0 0), (.finite 1 0, .finite 1 0),
      (.finite 0 0, .finite 0 0)] := by
  rw [outerCoordsText_cOuterW]
  decide

theorem ptf_pmPointW : placemark_to_feature pmPointW =
    some ⟨mkProps pmPointW, .point (.finite 1 0, .finite 2 0)⟩ :=
  ptf_point (pointGeom_of_parse_cons fd_pmPointW_point parse_cPointW)

theorem ptf_pmEDW : placemark_to_feature pmEDW =
    some ⟨mkProps pmEDW, .point (.finite 1 0, .finite 2 0)⟩ :=
  ptf_point (pointGeom_of_parse_cons fd_pmEDW_point parse_cPointW)

theorem ptf_rootPmW : placemark_to_feature rootPmW =
    some ⟨mkProps rootPmW, .point (.finite 1 0, .finite 2 0)⟩ :=
  ptf_point (pointGeom_of_parse_cons fd_rootPmW_point parse_cPointW)

theorem ptf_pmPolyW : placemark_to_feature pmPolyW =
    some ⟨mkProps pmPolyW,
      .polygon [[(.finite 0 0, .finite 0 0), (.finite 1 0, .finite 0 0),
        (.finite 1 0, .finite 1 0), (.finite 0 0, .finite 0 0)]]⟩ :=
  ptf_poly (pointGeom_of_find_none fd_pmPolyW_point) (lineGeom_of_find_none fd_pmPolyW_line)
    (polyGeom_of_parse_cons fd_pmPolyW_poly fd_cPolyW_outer parse_cOuterW)

theorem convert_docW : convert docW =
    (⟨[⟨mkProps pmPointW, .point (.finite 1 0, .finite 2 0)⟩]⟩, 1) := by
  rw [convert, fa_docW, List.filterMap_cons_some ptf_pmPointW, List.filterMap_nil,
    List.length_singleton]

theorem convert_rootPmW : convert rootPmW = (⟨[]⟩, 0) := by
  rw [convert, fa_rootPmW]
  rfl

/-- C1: a Placemark yields a Feature exactly when one of the three geometry
probes (Point, LineString, Polygon/outerBoundaryIs) finds its element and the
parsed coordinate sequence is non-empty, and every emitted Feature's geometry
has non-empty coordinates; a Placemark with no usable geometry contributes no
Feature (never a null-geometry Feature). -/
theorem c1_emitted_iff_usable_geometry (pm : Elem) :
    (∀ f, placemark_to_feature pm = some f → f.geometry.coordsNonempty = true) ∧
    ((∃ f, placemark_to_feature pm = some f) ↔
      ((∃ pt, findDesc pm (kml "Point") = some pt ∧
          parse_coordinates (coordsChildText pt) ≠ []) ∨
        (∃ ls, findDesc pm (kml "LineString") = some ls ∧
          parse_coordinates (coordsChildText ls) ≠ []) ∨
        (∃ pg ob, findDesc pm (kml "Polygon") = some pg ∧
          findDesc pg (kml "outerBoundaryIs") = some ob ∧
          parse_coordinates (outerCoordsText ob) ≠ []))) := by
  constructor
  · intro f h
    obtain ⟨-, hg⟩ := ptf_some_inv h
    rcases hg with hpt | ⟨-, hls⟩ | ⟨-, -, hpg⟩
    · obtain ⟨pt, c, cs, -, -, hgeq⟩ := pointGeom_some_inv hpt
      rw [hgeq]
      rfl
    · obtain ⟨ls, c, cs, -, -, hgeq⟩ := lineGeom_some_inv hls
      rw [hgeq]
      rfl
    · obtain ⟨pg, ob, c, cs, -, -, -, hgeq⟩ := polyGeom_some_inv hpg
      rw [hgeq]
      rfl
  · constructor
    · rintro ⟨f, hf⟩
      obtain ⟨-, hg⟩ := ptf_some_inv hf
      rcases hg with hpt | ⟨-, hls⟩ | ⟨-, -, hpg⟩
      · obtain ⟨pt, c, cs, h1, h2, -⟩ := pointGeom_some_inv hpt
        exact Or.inl ⟨pt, h1, by rw [h2]; exact List.cons_ne_nil c cs⟩
      · obtain ⟨ls, c, cs, h1, h2, -⟩ := lineGeom_some_inv hls
        exact Or.inr (Or.inl ⟨ls, h1, by rw [h2]; exact List.cons_ne_nil c cs⟩)
      · obtain ⟨pg, ob, c, cs, h1, h2, h3, -⟩ := polyGeom_some_inv hpg
        exact Or.inr (Or.inr ⟨pg, ob, h1, h2, by rw [h3]; exact List.cons_ne_nil c cs⟩)
    · intro hd
      cases hpt : pointGeom pm with
      | some g => exact ⟨_, ptf_point hpt⟩
      | none =>
        cases hls : lineGeom pm with
        | some g => exact ⟨_, ptf_line hpt hls⟩
        | none =>
          cases hpg : polyGeom pm with
          | some g => exact ⟨_, ptf_poly hpt hls hpg⟩
          | none =>
            exfalso
            rcases hd with ⟨pt, h1, hne⟩ | ⟨ls, h1, hne⟩ | ⟨pg, ob, h1, h2, hne⟩
            · exact hne (pointGeom_none_parse hpt h1)
            · exact hne (lineGeom_none_parse hls h1)
            · exact hne (polyGeom_none_parse hpg h1 h2)

/-- C1 witness: at the concrete Placemark with a parsable Point, the emitted
Feature's geometry coordinates are non-empty. -/
theorem c1_witness :
    (Feature.mk (mkProps pmPointW)
      (.point (.finite 1 0, .finite 2 0))).geometry.coordsNonempty = true :=
  (c1_emitted_iff_usable_geometry pmPointW).1 _ ptf_pmPointW

/-- C2 counterexample: a Placemark whose first `name` child has whitespace-only
text.  The trimmed text is empty, yet the properties mapping does contain the
key `name`, bound to the empty string — the source guards on the raw text's
truthiness before stripping, so the claim's "non-empty after trimming" and
"never set to the empty string" both fail here. -/
theorem c2_counterexample :
    findChild pmWsW (kml "name") = some cNameWsW ∧
    cNameWsW.text = some ("   ".toList) ∧
    pyStrip ("   ".toList) = [] ∧
    dictGet "name" (mkBaseProps pmWsW) = some [] :=
  ⟨rfl, rfl, by decide, by decide⟩

/-- C2 amended: the properties mapping built from the three text children
contains `name` exactly when the first `name` child is present and its RAW
text is non-empty (before trimming); the value is then the trimmed text,
which may be the empty string when the text is whitespace-only.  The same
rule holds for `description` and `styleUrl`. -/
theorem c2_amended (pm : Elem) (v : List Char) :
    (dictGet "name" (mkBaseProps pm) = some v ↔
      ∃ el tx, findChild pm (kml "name") = some el ∧ el.text = some tx ∧ tx ≠ [] ∧
        v = pyStrip tx) ∧
    (dictGet "description" (mkBaseProps pm) = some v ↔
      ∃ el tx, findChild pm (kml "description") = some el ∧ el.text = some tx ∧ tx ≠ [] ∧
        v = pyStrip tx) ∧
    (dictGet "styleUrl" (mkBaseProps pm) = some v ↔
      ∃ el tx, findChild pm (kml "styleUrl") = some el ∧ el.text = some tx ∧ tx ≠ [] ∧
        v = pyStrip tx) :=
  ⟨mkBaseProps_get_name pm v, mkBaseProps_get_description pm v, mkBaseProps_get_styleUrl pm v⟩

/-- C2 witness: the concrete Placemark with name text `A` gets property
`name = A`. -/
theorem c2_witness : dictGet "name" (mkBaseProps pmPointW) = some ("A".toList) :=
  (c2_amended pmPointW ("A".toList)).1.mpr ⟨cNameW, "A".toList, rfl, rfl, by decide, by decide⟩

/-- C3 counterexample: the token `inf,1` has two non-empty sub-fields but its
first sub-field does not parse as a FINITE float — `float('inf')` succeeds
with an infinity — yet the token does contribute an output pair, so the
claim's "if and only if ... finite" fails in the only-if direction. -/
theorem c3_counterexample :
    parse_coordinates (some ("inf,1".toList)) = [(.inf false, .finite 1 0)] ∧
    pyFields ("inf,1".toList) = ["inf".toList, "1".toList] ∧
    pyFloatFinite ("inf".toList) = false := by
  decide

/-- C3 amended: the parse maps each whitespace-separated token of the
stripped text to at most one pair, in input order; a token contributes a pair
exactly when it has at least two non-empty comma-separated sub-fields and the
first two are ACCEPTED by Python `float()` (which also accepts infinities and
NaN, not only finite numbers); failing tokens are skipped without affecting
the others. -/
theorem c3_amended (t tok : List Char) (p : PyVal × PyVal) :
    parse_coordinates (some t) = (pySplitWs (pyStrip t)).filterMap tokenPair ∧
    (tokenPair tok = some p ↔ ∃ f0 f1 rest, pyFields tok = f0 :: f1 :: rest ∧
      ∃ a b, pyFloat f0 = some a ∧ pyFloat f1 = some b ∧ p = (a, b)) :=
  ⟨parse_coordinates_some t, tokenPair_eq_some_iff tok p⟩

/-- C3 witness: the token `3,4` contributes the pair (3, 4). -/
theorem c3_witness : tokenPair ("3,4".toList) = some (.finite 3 0, .finite 4 0) :=
  (c3_amended [] ("3,4".toList) (.finite 3 0, .finite 4 0)).2.mpr
    ⟨"3".toList, "4".toList, [], by decide, .finite 3 0, .finite 4 0, by decide, by decide,
      rfl⟩

/-- C4: the geometry probes run in the fixed order Point, LineString, Polygon;
the first probe whose descendant search succeeds AND whose coordinates parse
to a non-empty sequence determines the Feature's geometry — a later probe is
reached only when every earlier probe either found no element or parsed an
empty sequence. -/
theorem c4_probe_priority (pm : Elem) :
    (∀ pt c cs, findDesc pm (kml "Point") = some pt →
        parse_coordinates (coordsChildText pt) = c :: cs →
        placemark_to_feature pm = some ⟨mkProps pm, .point c⟩) ∧
    ((∀ pt, findDesc pm (kml "Point") = some pt →
        parse_coordinates (coordsChildText pt) = []) →
      ∀ ls c cs, findDesc pm (kml "LineString") = some ls →
        parse_coordinates (coordsChildText ls) = c :: cs →
        placemark_to_feature pm = some ⟨mkProps pm, .lineString (c :: cs)⟩) ∧
    ((∀ pt, findDesc pm (kml "Point") = some pt →
        parse_coordinates (coordsChildText pt) = []) →
      (∀ ls, findDesc pm (kml "LineString") = some ls →
        parse_coordinates (coordsChildText ls) = []) →
      ∀ pg ob c cs, findDesc pm (kml "Polygon") = some pg →
        findDesc pg (kml "outerBoundaryIs") = some ob →
        parse_coordinates (outerCoordsText ob) = c :: cs →
        placemark_to_feature pm = some ⟨mkProps pm, .polygon [c :: cs]⟩) :=
  ⟨fun _ _ _ h1 h2 => ptf_point (pointGeom_of_parse_cons h1 h2),
    fun hpt _ _ _ h1 h2 =>
      ptf_line (pointGeom_none_of hpt) (lineGeom_of_parse_cons h1 h2),
    fun hpt hls _ _ _ _ h1 h2 h3 =>
      ptf_poly (pointGeom_none_of hpt) (lineGeom_none_of hls)
        (polyGeom_of_parse_cons h1 h2 h3)⟩

/-- C4 witness: the concrete Placemark containing both a Point and a
LineString produces a Point feature. -/
theorem c4_witness :
    placemark_to_feature pmBothW =
      some ⟨mkProps pmBothW, .point (.finite 1 0, .finite 2 0)⟩ ∧
    findDesc pmBothW (kml "LineString") = some cLineW :=
  ⟨(c4_probe_priority pmBothW).1 cPointW _ _ fd_pmBothW_point parse_cPointW,
    fd_pmBothW_line⟩

/-- One token with no whitespace characters parses as the singleton produced
by its own `tokenPair`. -/
theorem parse_single_token (tk : List Char) (hns : ∀ c ∈ tk, isPySpace c = false)
    (hne : tk ≠ []) : parse_coordinates (some tk) = (tokenPair tk).toList := by
  rw [parse_coordinates_some, pyStrip_of_nospace _ hns, pySplitWs_single _ hns hne]
  cases h : tokenPair tk <;> simp [h]

/-- C5: for whitespace-free numeric sub-fields lon and lat and any
whitespace-free altitude field alt, parsing the token lon,lat,alt yields the
same single [lon, lat] pair as parsing lon,lat — the third and further
comma-separated fields never affect the output. -/
theorem c5_altitude_ignored (lon lat alt : List Char) (a b : PyVal)
    (hlon : pyFloat lon = some a) (hlat : pyFloat lat = some b)
    (hlonc : ∀ c ∈ lon, isPySpace c = false ∧ c ≠ ',')
    (hlatc : ∀ c ∈ lat, isPySpace c = false ∧ c ≠ ',')
    (haltc : ∀ c ∈ alt, isPySpace c = false) :
    parse_coordinates (some (lon ++ ',' :: (lat ++ ',' :: alt))) =
      parse_coordinates (some (lon ++ ',' :: lat)) ∧
    parse_coordinates (some (lon ++ ',' :: lat)) = [(a, b)] := by
  have hlonne : lon ≠ [] := pyFloat_ne_nil hlon
  have hlatne : lat ≠ [] := pyFloat_ne_nil hlat
  have hlonnc : ',' ∉ lon := fun hc => (hlonc ',' hc).2 rfl
  have hlatnc : ',' ∉ lat := fun hc => (hlatc ',' hc).2 rfl
  have hcomma : isPySpace ',' = false := by decide
  have hns2 : ∀ c ∈ lon ++ ',' :: lat, isPySpace c = false := by
    intro c hc
    rcases List.mem_append.mp hc with h | h
    · exact (hlonc c h).1
    · rcases List.mem_cons.mp h with rfl | h
      · exact hcomma
      · exact (hlatc c h).1
  have hns3 : ∀ c ∈ lon ++ ',' :: (lat ++ ',' :: alt), isPySpace c = false := by
    intro c hc
    rcases List.mem_append.mp hc with h | h
    · exact (hlonc c h).1
    · rcases List.mem_cons.mp h with rfl | h
      · exact hcomma
      · rcases List.mem_append.mp h with h | h
        · exact (hlatc c h).1
        · rcases List.mem_cons.mp h with rfl | h
          · exact hcomma
          · exact haltc c h
  have hne2 : lon ++ ',' :: lat ≠ [] := by cases lon <;> simp
  have hne3 : lon ++ ',' :: (lat ++ ',' :: alt) ≠ [] := by cases lon <;> simp
  have h2 : tokenPair (lon ++ ',' :: lat) = some (a, b) := by
    unfold tokenPair
    rw [pyFields_cons_of_comma_free lon lat hlonnc hlonne, pyFields_nosep lat hlatnc hlatne]
    simp [hlon, hlat]
  have h3 : tokenPair (lon ++ ',' :: (lat ++ ',' :: alt)) = some (a, b) := by
    unfold tokenPair
    rw [pyFields_cons_of_comma_free lon _ hlonnc hlonne,
      pyFields_cons_of_comma_free lat alt hlatnc hlatne]
    simp [hlon, hlat]
  constructor
  · rw [parse_single_token _ hns3 hne3, parse_single_token _ hns2 hne2, h2, h3]
  · rw [parse_single_token _ hns2 hne2, h2]
    rfl

/-- C5 witness: parsing `1,2,xyz` and `1,2` both yield exactly the pair
(1, 2). -/
theorem c5_witness :
    parse_coordinates (some ("1".toList ++ ',' :: ("2".toList ++ ',' :: "xyz".toList))) =
      parse_coordinates (some ("1".toList ++ ',' :: "2".toList)) ∧
    parse_coordinates (some ("1".toList ++ ',' :: "2".toList)) =
      [(.finite 1 0, .finite 2 0)] :=
  c5_altitude_ignored "1".toList "2".toList "xyz".toList _ _ (by decide) (by decide)
    (by decide) (by decide) (by decide)

/-- C6: when the first descendant Point's coordinates text parses to a
non-empty sequence, the emitted Feature is a Point whose coordinates are the
FIRST pair; later pairs are discarded; a Point with no `coordinates` child is
read as empty text. -/
theorem c6_point_first_pair (pm pt : Elem) (c : PyVal × PyVal) (cs : List (PyVal × PyVal))
    (h1 : findDesc pm (kml "Point") = some pt)
    (h2 : parse_coordinates (coordsChildText pt) = c :: cs) :
    placemark_to_feature pm = some ⟨mkProps pm, .point c⟩ ∧
    (findChild pt (kml "coordinates") = none → coordsChildText pt = some []) :=
  ⟨ptf_point (pointGeom_of_parse_cons h1 h2), fun h => by rw [coordsChildText, h]⟩

/-- C6 witness: the concrete Point parses to TWO pairs and only the first one,
(1, 2), appears in the emitted geometry. -/
theorem c6_witness :
    placemark_to_feature pmPointW =
      some ⟨mkProps pmPointW, .point (.finite 1 0, .finite 2 0)⟩ :=
  (c6_point_first_pair pmPointW cPointW _ _ fd_pmPointW_point parse_cPointW).1

/-- C7: every Feature whose geometry is a Polygon has exactly one ring, namely
the parsed coordinate sequence of the first descendant `coordinates` element
anywhere under the Polygon's first descendant `outerBoundaryIs` (not
restricted to a direct LinearRing child), and that ring is non-empty. -/
theorem c7_polygon_single_ring (pm : Elem) (f : Feature) (rs : List (List (PyVal × PyVal)))
    (h : placemark_to_feature pm = some f) (hg : f.geometry = .polygon rs) :
    ∃ pg ob, findDesc pm (kml "Polygon") = some pg ∧
      findDesc pg (kml "outerBoundaryIs") = some ob ∧
      rs = [parse_coordinates (outerCoordsText ob)] ∧
      parse_coordinates (outerCoordsText ob) ≠ [] := by
  obtain ⟨-, hgm⟩ := ptf_some_inv h
  rcases hgm with hpt | ⟨-, hls⟩ | ⟨-, -, hpg⟩
  · obtain ⟨pt, c, cs, -, -, hq⟩ := pointGeom_some_inv hpt
    rw [hq] at hg
    exact Geometry.noConfusion hg
  · obtain ⟨ls, c, cs, -, -, hq⟩ := lineGeom_some_inv hls
    rw [hq] at hg
    exact Geometry.noConfusion hg
  · obtain ⟨pg, ob, c, cs, h1, h2, h3, hq⟩ := polyGeom_some_inv hpg
    rw [hq] at hg
    injection hg with hrs
    exact ⟨pg, ob, h1, h2, by rw [← hrs, h3],
      by rw [h3]; exact List.cons_ne_nil c cs⟩

/-- C7 witness: the concrete Polygon placemark, whose coordinates sit under a
LinearRing below outerBoundaryIs, produces the single expected ring. -/
theorem c7_witness :
    ∃ pg ob, findDesc pmPolyW (kml "Polygon") = some pg ∧
      findDesc pg (kml "outerBoundaryIs") = some ob ∧
      [[((.finite 0 0 : PyVal), (.finite 0 0 : PyVal)), (.finite 1 0, .finite 0 0),
        (.finite 1 0, .finite 1 0), (.finite 0 0, .finite 0 0)]] =
        [parse_coordinates (outerCoordsText ob)] ∧
      parse_coordinates (outerCoordsText ob) ≠ [] :=
  c7_polygon_single_ring pmPolyW _ _ ptf_pmPolyW rfl

/-- C8 counterexample: a well-formed tree whose ROOT element is itself a
usable Placemark.  `root.findall('.//...')` only returns proper descendants,
so the conversion emits no Feature at all for it: the root Placemark is never
visited, refuting "visits every Placemark element anywhere in the tree". -/
theorem c8_counterexample :
    rootPmW.tag = kml "Placemark" ∧
    placemark_to_feature rootPmW =
      some ⟨mkProps rootPmW, .point (.finite 1 0, .finite 2 0)⟩ ∧
    convert rootPmW = (⟨[]⟩, 0) :=
  ⟨rfl, ptf_rootPmW, convert_rootPmW⟩

/-- C8 amended: the conversion visits exactly the Placemark elements that are
PROPER descendants of the root element — every such Placemark at any nesting
depth (the `ChildStar` closure), in document (pre-)order — lists the
resulting Features in that order, and returns the number of Features
produced; the root element itself is never examined. -/
theorem c8_amended (root : Elem) :
    (convert root).2 = (convert root).1.features.length ∧
    (convert root).1.features =
      ((descendants root).filter (fun e => e.tag == kml "Placemark")).filterMap
        placemark_to_feature ∧
    (∀ e, e ∈ descendants root ↔ ChildStar root e) :=
  ⟨rfl, rfl, fun e => mem_descendants_iff_childStar root e⟩

/-- C8 witness: on the concrete nested document the returned count equals the
number of listed Features. -/
theorem c8_witness : (convert docW).2 = (convert docW).1.features.length :=
  (c8_amended docW).1

/-- C9: the conversion is a pure function of the parsed input tree — two runs
on the same tree produce identical FeatureCollection structures and counts,
hence byte-identical serialised output. -/
theorem c9_deterministic (r1 r2 : Elem) (h : r1 = r2) : convert r1 = convert r2 := by
  rw [h]

/-- C9 witness: two runs on the concrete document agree. -/
theorem c9_witness : convert docW = convert docW :=
  c9_deterministic docW docW rfl

/-- C10: a `Data` element whose `name` attribute is the empty string is
skipped exactly as if the attribute were missing, and no emitted Feature's
properties mapping ever contains an empty-string key. -/
theorem c10_empty_data_name_skipped (pm : Elem) (f : Feature) (d : Elem)
    (ps : List (String × List Char)) :
    (placemark_to_feature pm = some f → dictGet "" f.properties = none) ∧
    (getAttr d "name" = some "" → dataStep ps d = ps) ∧
    (getAttr d "name" = none → dataStep ps d = ps) :=
  ⟨fun h => by rw [(ptf_some_inv h).1]; exact mkProps_get_empty pm,
    dataStep_skip_empty_name ps d, dataStep_skip_no_name ps d⟩

/-- C10 witness: the concrete Placemark carrying a Data entry with an
empty-string name attribute emits a Feature with no empty-string property
key, and that Data entry leaves the mapping unchanged. -/
theorem c10_witness :
    dictGet "" (Feature.mk (mkProps pmEDW)
      (.point (.finite 1 0, .finite 2 0))).properties = none ∧
    dataStep [] cDataEmptyW = [] :=
  ⟨(c10_empty_data_name_skipped pmEDW _ cDataEmptyW []).1 ptf_pmEDW,
    (c10_empty_data_name_skipped pmEDW
      (Feature.mk (mkProps pmEDW) (.point (.finite 1 0, .finite 2 0)))
      cDataEmptyW []).2.1 rfl⟩
